import Mathlib

/-!
Verification of the osbuild image-compiler sources against their
specification.  The definitions below are shallow embeddings of the Go
functions in `src/pkg/distro/fedora/images.go` (which contains the
`fedora` package followed by the `rhel9` package) and of the standalone
build executable in `src/unnamed/part_000`.  Machine integers are
modelled as `Nat` with explicit reduction modulo 2^32 where the Go code
relies on 32-bit overflow (the SHA-256 core); strings are Lean `String`
values, and Go `nil`-able pointers become `Option`.
-/

set_option maxRecDepth 1000000

/-! ### SHA-256 (shallow embedding of Go `crypto/sha256` as used by `resolveCommit`)

`resolveCommit` in `src/unnamed/part_000` calls `sha256.Sum256` on the
byte concatenation of the source URL and ref and formats the digest with
`%x` (lowercase hex).  The functions below implement FIPS 180-4 SHA-256
over byte lists, executable by kernel reduction. -/

def w32 : Nat := 4294967296

def rotr (n x : Nat) : Nat :=
  ((x >>> n) ||| (x <<< (32 - n))) % w32

def shr (n x : Nat) : Nat := x >>> n

def add32 (a b : Nat) : Nat := (a + b) % w32

def xor3 (a b c : Nat) : Nat := (a ^^^ b) ^^^ c

/-- The 64 SHA-256 round constants (FIPS 180-4 section 4.2.2), written
in decimal. -/
def sha256K : List Nat :=
  [1116352408, 1899447441, 3049323471, 3921009573, 961987163,
   1508970993, 2453635748, 2870763221, 3624381080, 310598401,
   607225278, 1426881987, 1925078388, 2162078206, 2614888103,
   3248222580, 3835390401, 4022224774, 264347078, 604807628,
   770255983, 1249150122, 1555081692, 1996064986, 2554220882,
   2821834349, 2952996808, 3210313671, 3336571891, 3584528711,
   113926993, 338241895, 666307205, 773529912, 1294757372,
   1396182291, 1695183700, 1986661051, 2177026350, 2456956037,
   2730485921, 2820302411, 3259730800, 3345764771, 3516065817,
   3600352804, 4094571909, 275423344, 430227734, 506948616,
   659060556, 883997877, 958139571, 1322822218, 1537002063,
   1747873779, 1955562222, 2024104815, 2227730452, 2361852424,
   2428436474, 2756734187, 3204031479, 3329325298]

structure Hash8 where
  h0 : Nat
  h1 : Nat
  h2 : Nat
  h3 : Nat
  h4 : Nat
  h5 : Nat
  h6 : Nat
  h7 : Nat

/-- The initial SHA-256 hash words (FIPS 180-4 section 5.3.3), in decimal. -/
def sha256InitState : Hash8 :=
  ⟨1779033703, 3144134277, 1013904242, 2773480762,
   1359893119, 2600822924, 528734635, 1541459225⟩

/-- Number of zero bytes inserted between the 0x80 marker and the 8-byte
length field so the padded message length is a multiple of 64. -/
def padZeros (len : Nat) : Nat :=
  (64 + 56 - (len + 1) % 64) % 64

def beBytes8 (n : Nat) : List Nat :=
  [(n >>> 56) % 256, (n >>> 48) % 256, (n >>> 40) % 256, (n >>> 32) % 256,
   (n >>> 24) % 256, (n >>> 16) % 256, (n >>> 8) % 256, n % 256]

def sha256Pad (msg : List Nat) : List Nat :=
  msg ++ 0x80 :: List.replicate (padZeros msg.length) 0 ++ beBytes8 (8 * msg.length)

def bytesToWords : List Nat → List Nat
  | a :: b :: c :: d :: rest => (((a * 256 + b) * 256 + c) * 256 + d) :: bytesToWords rest
  | _ => []

def nextWord (w : List Nat) : Nat :=
  let n := w.length
  let w15 := w.getD (n - 15) 0
  let w2 := w.getD (n - 2) 0
  let s0 := xor3 (rotr 7 w15) (rotr 18 w15) (shr 3 w15)
  let s1 := xor3 (rotr 17 w2) (rotr 19 w2) (shr 10 w2)
  add32 (add32 (w.getD (n - 16) 0) s0) (add32 (w.getD (n - 7) 0) s1)

def extendWords : Nat → List Nat → List Nat
  | 0, w => w
  | n + 1, w => extendWords n (w ++ [nextWord w])

def sha256Round (st : Hash8) (kw : Nat × Nat) : Hash8 :=
  let e := st.h4
  let a := st.h0
  let s1 := xor3 (rotr 6 e) (rotr 11 e) (rotr 25 e)
  let ch := (e &&& st.h5) ^^^ ((e ^^^ (w32 - 1)) &&& st.h6)
  let temp1 := add32 (add32 (add32 st.h7 s1) (add32 ch kw.1)) kw.2
  let s0 := xor3 (rotr 2 a) (rotr 13 a) (rotr 22 a)
  let maj := ((a &&& st.h1) ^^^ (a &&& st.h2)) ^^^ (st.h1 &&& st.h2)
  let temp2 := add32 s0 maj
  ⟨add32 temp1 temp2, a, st.h1, st.h2, add32 st.h3 temp1, e, st.h5, st.h6⟩

def sha256Block (st : Hash8) (block : List Nat) : Hash8 :=
  let w := extendWords 48 (bytesToWords block)
  let r := (sha256K.zip w).foldl sha256Round st
  ⟨add32 st.h0 r.h0, add32 st.h1 r.h1, add32 st.h2 r.h2, add32 st.h3 r.h3,
   add32 st.h4 r.h4, add32 st.h5 r.h5, add32 st.h6 r.h6, add32 st.h7 r.h7⟩

def sha256Blocks : Nat → Hash8 → List Nat → Hash8
  | 0, st, _ => st
  | _, st, [] => st
  | fuel + 1, st, bytes => sha256Blocks fuel (sha256Block st (bytes.take 64)) (bytes.drop 64)

def hexDigit (n : Nat) : Char :=
  if n < 10 then Char.ofNat (48 + n) else Char.ofNat (87 + n % 16)

def hexWord8 (n : Nat) : List Char :=
  [hexDigit ((n >>> 28) % 16), hexDigit ((n >>> 24) % 16), hexDigit ((n >>> 20) % 16),
   hexDigit ((n >>> 16) % 16), hexDigit ((n >>> 12) % 16), hexDigit ((n >>> 8) % 16),
   hexDigit ((n >>> 4) % 16), hexDigit (n % 16)]

/-- Lowercase hex SHA-256 digest of a byte list, matching Go's
`fmt.Sprintf("%x", sha256.Sum256(b))`. -/
def sha256Hex (msg : List Nat) : String :=
  let padded := sha256Pad msg
  let st := sha256Blocks (padded.length / 64) sha256InitState padded
  String.mk (hexWord8 st.h0 ++ hexWord8 st.h1 ++ hexWord8 st.h2 ++ hexWord8 st.h3 ++
             hexWord8 st.h4 ++ hexWord8 st.h5 ++ hexWord8 st.h6 ++ hexWord8 st.h7)

def utf8EncodeChar (c : Char) : List Nat :=
  let n := c.toNat
  if n < 0x80 then [n]
  else if n < 0x800 then [0xc0 ||| (n >>> 6), 0x80 ||| (n &&& 0x3f)]
  else if n < 0x10000 then [0xe0 ||| (n >>> 12), 0x80 ||| ((n >>> 6) &&& 0x3f), 0x80 ||| (n &&& 0x3f)]
  else [0xf0 ||| (n >>> 18), 0x80 ||| ((n >>> 12) &&& 0x3f), 0x80 ||| ((n >>> 6) &&& 0x3f), 0x80 ||| (n &&& 0x3f)]

/-- UTF-8 bytes of a string: the byte content of Go's `[]byte(s)`. -/
def utf8Bytes (s : String) : List Nat :=
  s.data.foldr (fun c acc => utf8EncodeChar c ++ acc) []

/-- FIPS 180-4 test vector check: the implementation hashes "abc" correctly. -/
example : sha256Hex (utf8Bytes "abc") =
    "ba7816bf8f01cfea414140de5dae2223b00361a396177a9cb410ff61f20015ad" := by decide

/-- FIPS 180-4 test vector check: the empty-message digest. -/
example : sha256Hex (utf8Bytes "") =
    "e3b0c44298fc1c149afbf4c8996fb92427ae41e4649b934ca495991b7852b855" := by decide

/-! ### OSTree source and commit specs, and the deterministic resolver -/

/-- `ostree.SourceSpec`: URL, ref and RHSM flag of an ostree commit source. -/
structure OSTreeSourceSpec where
  url : String
  ref : String
  rhsm : Bool
deriving DecidableEq

/-- `ostree.CommitSpec`: a resolved ostree commit. -/
structure OSTreeCommitSpec where
  ref : String
  url : String
  checksum : String
  secrets : String
deriving DecidableEq

/-- `resolveCommit` from `src/unnamed/part_000` (lines 235-248): "resolves"
an ostree commit by hashing URL + ref into a deterministic checksum, and
attaches the RHSM secrets-provider token when the source demands it.  The
`secrets` field is the Go zero value "" when RHSM is unset. -/
def resolveCommit (commitSource : OSTreeSourceSpec) : OSTreeCommitSpec :=
  let checksum := sha256Hex (utf8Bytes (commitSource.url ++ commitSource.ref))
  { ref := commitSource.ref
    url := commitSource.url
    checksum := checksum
    secrets := if commitSource.rhsm then "org.osbuild.rhsm.consumer" else "" }

/-- C8: the deterministic OSTree resolver returns a commit spec whose
checksum is the hex SHA-256 of the concatenation of the source URL and
ref (hence equal (URL, ref) pairs resolve to equal checksums), whose ref
and URL equal the source's, and whose secrets provider is
"org.osbuild.rhsm.consumer" exactly when the RHSM flag is set and empty
otherwise.  The final conjunct checks the hash pipeline against the
FIPS 180-4 "abc" test vector through `resolveCommit` itself. -/
theorem resolveCommit_spec :
    (∀ src : OSTreeSourceSpec,
      (resolveCommit src).checksum = sha256Hex (utf8Bytes (src.url ++ src.ref)) ∧
      (resolveCommit src).ref = src.ref ∧
      (resolveCommit src).url = src.url ∧
      (resolveCommit src).secrets = (if src.rhsm then "org.osbuild.rhsm.consumer" else "") ∧
      (∀ src' : OSTreeSourceSpec, src.url = src'.url → src.ref = src'.ref →
        (resolveCommit src).checksum = (resolveCommit src').checksum)) ∧
    (resolveCommit ⟨"a", "bc", false⟩).checksum =
      "ba7816bf8f01cfea414140de5dae2223b00361a396177a9cb410ff61f20015ad" := by
  constructor
  · intro src
    refine ⟨rfl, rfl, rfl, rfl, ?_⟩
    intro src' hu hr
    simp [resolveCommit, hu, hr]
  · decide

/-- Witness for `resolveCommit_spec`: instantiating the determinism
conjunct at two concrete sources differing only in the RHSM flag. -/
theorem resolveCommit_spec_witness :
    (resolveCommit ⟨"https://example.org", "r1", false⟩).checksum =
      (resolveCommit ⟨"https://example.org", "r1", true⟩).checksum :=
  (resolveCommit_spec.1 ⟨"https://example.org", "r1", false⟩).2.2.2.2
    ⟨"https://example.org", "r1", true⟩ rfl rfl

/-! ### Release-version comparison and version-gated features

The gating sites are in `src/pkg/distro/fedora/images.go`:
`liveInstallerImage` (fedora, lines 260-267) and `edgeCommitImage`
(rhel9, lines 806-808).  They call `common.VersionLessThan`, whose body
is not part of the sources here, so the comparison itself is modelled
from the spec (see `versionLessThan`). -/

def splitDot : List Char → List (List Char)
  | [] => [[]]
  | c :: rest =>
    if c = '.' then [] :: splitDot rest
    else
      match splitDot rest with
      | [] => [[c]]
      | g :: gs => (c :: g) :: gs

def parseComp (cs : List Char) : Option Nat :=
  if !cs.isEmpty && cs.all Char.isDigit then
    some (cs.foldl (fun acc c => acc * 10 + (c.toNat - 48)) 0)
  else
    none

/-- Parse a dotted-decimal release string; `none` for any string that is
not purely dotted-decimal (the rolling tokens, e.g. "9-stream"). -/
def parseDotted (s : String) : Option (List Nat) :=
  (splitDot s.data).mapM parseComp

/-- Dotted-decimal comparison, missing components counting as zero. -/
def dottedLt : List Nat → List Nat → Bool
  | [], bs => bs.any (fun b => decide (0 < b))
  | _ :: _, [] => false
  | a :: as, b :: bs =>
    if a < b then true
    else if b < a then false
    else dottedLt as bs

/-- Canonical form of a dotted-decimal version: trailing zeros dropped. -/
def normDotted : List Nat → List Nat
  | [] => []
  | a :: as =>
    match normDotted as with
    | [] => if a = 0 then [] else [a]
    | l => a :: l

/-- Modelled from the spec: `common.VersionLessThan` lives in
`internal/common`, which is not among the sources; the spec describes it
as a total order over dotted-decimal release strings with a distinguished
rolling token that always compares as newest.  Non-dotted-decimal release
strings (e.g. "9-stream", "rawhide") are the rolling tokens and are never
less than anything. -/
def versionLessThan (a b : String) : Bool :=
  match parseDotted a, parseDotted b with
  | some va, some vb => dottedLt va vb
  | none, _ => false
  | some _, none => true

/-- The comparison key of a release string: its canonical dotted-decimal
form, or `none` for the rolling tokens. -/
def versionKey (s : String) : Option (List Nat) :=
  (parseDotted s).map normDotted

namespace Fedora

/-- Fedora `liveInstallerImage` (images.go lines 260-267): the web-UI
installer kernel options are attached exactly for release 39 and newer. -/
def liveInstallerAdditionalKernelOpts (releasever : String) : List String :=
  if versionLessThan releasever "39" then [] else ["inst.webui"]

end Fedora

namespace Rhel9

/-- rhel9 `edgeCommitImage` (images.go line 806): the ignition first-boot
services are enabled when the os version is not below 9.2 or is the
9-stream rolling release. -/
def edgeCommitIgnitionGate (osVersion : String) : Bool :=
  !versionLessThan osVersion "9.2" || osVersion == "9-stream"

/-- rhel9 `edgeCommitImage` (images.go lines 806-808): the enabled-services
list gains the two ignition services under the version gate. -/
def edgeCommitExtraServices (osVersion : String) (enabledServices : List String) : List String :=
  if edgeCommitIgnitionGate osVersion then
    enabledServices ++ ["ignition-firstboot-complete.service", "coreos-ignition-write-issues.service"]
  else
    enabledServices

end Rhel9

theorem dottedLt_asymm : ∀ a b, dottedLt a b = true → dottedLt b a = false := by
  intro a
  induction a with
  | nil =>
    intro b h
    cases b with
    | nil => simp [dottedLt] at h
    | cons x xs => simp [dottedLt]
  | cons x xs ih =>
    intro b h
    cases b with
    | nil => simp [dottedLt] at h
    | cons y ys =>
      rcases Nat.lt_trichotomy x y with hlt | heq | hgt
      · simp [dottedLt, hlt, Nat.lt_asymm hlt]
      · subst heq
        simp only [dottedLt, lt_irrefl, if_false] at h ⊢
        exact ih ys h
      · simp [dottedLt, hgt, Nat.lt_asymm hgt] at h

theorem normDotted_eq_nil (b : List Nat) (h : ∀ x ∈ b, x = 0) : normDotted b = [] := by
  induction b with
  | nil => rfl
  | cons x xs ih =>
    have hx : x = 0 := h x (List.mem_cons_self x xs)
    have hxs : normDotted xs = [] := ih fun y hy => h y (List.mem_cons_of_mem x hy)
    simp [normDotted, hxs, hx]

theorem dottedLt_total :
    ∀ a b, dottedLt a b = true ∨ dottedLt b a = true ∨ normDotted a = normDotted b := by
  intro a
  induction a with
  | nil =>
    intro b
    cases hb : b.any (fun x => decide (0 < x)) with
    | true => left; simpa [dottedLt] using hb
    | false =>
      right; right
      have hz : ∀ x ∈ b, x = 0 := by
        intro x hx
        have := (List.any_eq_false).mp hb x hx
        simpa using this
      simp [normDotted_eq_nil b hz, normDotted]
  | cons x xs ih =>
    intro b
    cases b with
    | nil =>
      cases hb : (x :: xs).any (fun v => decide (0 < v)) with
      | true => right; left; simpa [dottedLt] using hb
      | false =>
        right; right
        have hz : ∀ v ∈ x :: xs, v = 0 := by
          intro v hv
          have := (List.any_eq_false).mp hb v hv
          simpa using this
        rw [normDotted_eq_nil _ hz]
        rfl
    | cons y ys =>
      rcases Nat.lt_trichotomy x y with hlt | heq | hgt
      · left; simp [dottedLt, hlt]
      · subst heq
        rcases ih ys with h | h | h
        · left
          simp only [dottedLt, lt_irrefl, if_false]
          exact h
        · right; left
          simp only [dottedLt, lt_irrefl, if_false]
          exact h
        · right; right
          simp [normDotted, h]
      · right; left; simp [dottedLt, hgt]

theorem versionLessThan_total :
    ∀ a b, versionLessThan a b = true ∨ versionLessThan b a = true ∨ versionKey a = versionKey b := by
  intro a b
  cases ha : parseDotted a with
  | none =>
    cases hb : parseDotted b with
    | none => right; right; simp [versionKey, ha, hb]
    | some vb => right; left; simp [versionLessThan, ha, hb]
  | some va =>
    cases hb : parseDotted b with
    | none => left; simp [versionLessThan, ha, hb]
    | some vb =>
      rcases dottedLt_total va vb with h | h | h
      · left; simpa [versionLessThan, ha, hb] using h
      · right; left; simpa [versionLessThan, ha, hb] using h
      · right; right; simp [versionKey, ha, hb, h]

theorem versionLessThan_asymm :
    ∀ a b, versionLessThan a b = true → versionLessThan b a = false := by
  intro a b h
  cases ha : parseDotted a with
  | none => simp [versionLessThan, ha] at h
  | some va =>
    cases hb : parseDotted b with
    | none => simp [versionLessThan, hb]
    | some vb =>
      have hd : dottedLt va vb = true := by simpa [versionLessThan, ha, hb] using h
      simpa [versionLessThan, ha, hb] using dottedLt_asymm va vb hd

theorem versionLessThan_rolling :
    ∀ a b, parseDotted a = none → versionLessThan a b = false := by
  intro a b h
  cases hb : parseDotted b <;> simp [versionLessThan, h, hb]

theorem parseDotted_nineStream : parseDotted "9-stream" = none := by decide

/-- C6: version-gated features are enabled exactly at or above the
threshold under a total order on dotted-decimal release strings whose
rolling token always compares as newest: the gate of Fedora's
`liveInstallerImage` at threshold "39" admits "39" and "9-stream" and
rejects "38"; `versionLessThan` is asymmetric and total (up to equal
comparison keys) with rolling tokens never below anything; and the rhel9
`edgeCommitImage` gate at threshold "9.2" coincides with
"not version-less-than 9.2". -/
theorem versionGate_spec :
    Fedora.liveInstallerAdditionalKernelOpts "38" = [] ∧
    Fedora.liveInstallerAdditionalKernelOpts "39" = ["inst.webui"] ∧
    Fedora.liveInstallerAdditionalKernelOpts "9-stream" = ["inst.webui"] ∧
    (∀ v, Fedora.liveInstallerAdditionalKernelOpts v = ["inst.webui"] ↔
      versionLessThan v "39" = false) ∧
    (∀ a b, versionLessThan a b = true ∨ versionLessThan b a = true ∨
      versionKey a = versionKey b) ∧
    (∀ a b, versionLessThan a b = true → versionLessThan b a = false) ∧
    (∀ a b, parseDotted a = none → versionLessThan a b = false) ∧
    (∀ v, Rhel9.edgeCommitIgnitionGate v = !versionLessThan v "9.2") := by
  refine ⟨by decide, by decide, by decide, ?_, versionLessThan_total, versionLessThan_asymm,
    versionLessThan_rolling, ?_⟩
  · intro v
    unfold Fedora.liveInstallerAdditionalKernelOpts
    cases h : versionLessThan v "39" <;> simp [h]
  · intro v
    unfold Rhel9.edgeCommitIgnitionGate
    cases hp : parseDotted v with
    | none =>
      rw [versionLessThan_rolling v "9.2" hp]
      cases hb : (v == "9-stream") <;> simp [hb]
    | some vv =>
      have hne : v ≠ "9-stream" := by
        intro hv
        rw [hv, parseDotted_nineStream] at hp
        exact Option.noConfusion hp
      have hbeq : (v == "9-stream") = false := beq_eq_false_iff_ne.mpr hne
      rw [hbeq]
      cases h : versionLessThan v "9.2" <;> simp

/-- Witness for `versionGate_spec`: instantiating the asymmetry conjunct
at "38" and "39" and the equivalence conjunct at "9-stream". -/
theorem versionGate_spec_witness :
    versionLessThan "39" "38" = false ∧
    Fedora.liveInstallerAdditionalKernelOpts "9-stream" = ["inst.webui"] :=
  ⟨versionGate_spec.2.2.2.2.2.1 "38" "39" (by decide),
   (versionGate_spec.2.2.2.1 "9-stream").mpr
     (versionGate_spec.2.2.2.2.2.2.1 "9-stream" "39" (by decide))⟩

/-! ### Blueprint customizations and the customization-merge engine

Shallow embedding of `osCustomizations` from
`src/pkg/distro/fedora/images.go` — the fedora variant (lines 24-199)
and the rhel9 variant (lines 557-759).  Only the fields the merge logic
below actually branches on are modelled; the remaining entries of
`manifest.OSCustomizations` are verbatim copies of package-set /
image-config fields and do not interact with the merge rules under
verification.  The blueprint getter functions (`GetKernel`, `GetUsers`,
`GetGroups`, `GetFirewall`) live in the `blueprint` package outside the
sources here; they are plain nil-guards returning the embedded
customization or its zero value, which is how they are modelled. -/

structure KernelCustomization where
  name : String
  append : String
deriving DecidableEq

structure FirewallServicesCustomization where
  enabled : List String
  disabled : List String
deriving DecidableEq

structure FirewallZoneCustomization where
  name : String
  sources : List String
deriving DecidableEq

structure FirewallCustomization where
  ports : List String
  services : Option FirewallServicesCustomization
  zones : List FirewallZoneCustomization
deriving DecidableEq

structure BlueprintUser where
  name : String
deriving DecidableEq

structure BlueprintGroup where
  name : String
deriving DecidableEq

structure Customizations where
  kernel : Option KernelCustomization
  users : List BlueprintUser
  groups : List BlueprintGroup
  firewall : Option FirewallCustomization
deriving DecidableEq

/-- `blueprint.GetKernel` nil-guard: the kernel customization, or its zero
value when absent (only the `append` field feeds the claims below). -/
def getKernel (c : Customizations) : KernelCustomization :=
  c.kernel.getD ⟨"", ""⟩

structure OSUser where
  name : String
deriving DecidableEq

structure OSGroup where
  name : String
deriving DecidableEq

/-- `users.UsersFromBP`: per-element conversion of blueprint users. -/
def usersFromBP (us : List BlueprintUser) : List OSUser :=
  us.map fun u => ⟨u.name⟩

/-- `users.GroupsFromBP`: per-element conversion of blueprint groups. -/
def groupsFromBP (gs : List BlueprintGroup) : List OSGroup :=
  gs.map fun g => ⟨g.name⟩

structure FirewallZone where
  name : String
  sources : List String
deriving DecidableEq

/-- `osbuild.FirewallStageOptions`; Go nil slices are empty lists. -/
structure FirewallStageOptions where
  ports : List String
  enabledServices : List String
  disabledServices : List String
  zones : List FirewallZone
deriving DecidableEq

/-- The distro-default image configuration (`distro.ImageConfig`),
restricted to the fields the embedded merge logic reads. -/
structure ImageConfig where
  enabledServices : List String
  disabledServices : List String
  firewall : Option FirewallStageOptions
deriving DecidableEq

/-- The image-type descriptor: boot capability flags, default kernel
options and the default image configuration. -/
structure ImageType where
  bootable : Bool
  rpmOstree : Bool
  bootISO : Bool
  kernelOptions : String
  defaultImageConfig : ImageConfig
deriving DecidableEq

/-- `manifest.OSCustomizations`, restricted to the merge-sensitive fields. -/
structure OSCustomizations where
  kernelName : String
  kernelOptionsAppend : List String
  users : List OSUser
  groups : List OSGroup
  enabledServices : List String
  disabledServices : List String
  firewall : Option FirewallStageOptions
deriving DecidableEq

namespace Fedora

/-- Fedora `osCustomizations` (images.go lines 24-199): kernel fields only
for bootable/ostree types, users/groups withheld from installer (bootISO)
payloads, and a user firewall customization built without consulting the
distro default (the fedora variant never reads
`imageConfig.Firewall` and drops user zones). -/
def osCustomizations (t : ImageType) (c : Customizations) : OSCustomizations :=
  let imageConfig := t.defaultImageConfig
  { kernelName := if t.bootable || t.rpmOstree then (getKernel c).name else ""
    kernelOptionsAppend :=
      if t.bootable || t.rpmOstree then
        (if t.kernelOptions ≠ "" then [t.kernelOptions] else []) ++
        (if (getKernel c).append ≠ "" then [(getKernel c).append] else [])
      else []
    users := if !t.bootISO then usersFromBP c.users else []
    groups := if !t.bootISO then groupsFromBP c.groups else []
    enabledServices := imageConfig.enabledServices
    disabledServices := imageConfig.disabledServices
    firewall :=
      match c.firewall with
      | none => none
      | some fw =>
        some { ports := fw.ports
               enabledServices := match fw.services with | some s => s.enabled | none => []
               disabledServices := match fw.services with | some s => s.disabled | none => []
               zones := [] } }

end Fedora

namespace Rhel9

/-- rhel9 `osCustomizations` (images.go lines 557-759): as the fedora
variant, but the firewall starts from `imageConfig.Firewall` and a user
customization replaces it wholesale, including user zones. -/
def osCustomizations (t : ImageType) (c : Customizations) : OSCustomizations :=
  let imageConfig := t.defaultImageConfig
  { kernelName := if t.bootable || t.rpmOstree then (getKernel c).name else ""
    kernelOptionsAppend :=
      if t.bootable || t.rpmOstree then
        (if t.kernelOptions ≠ "" then [t.kernelOptions] else []) ++
        (if (getKernel c).append ≠ "" then [(getKernel c).append] else [])
      else []
    users := if !t.bootISO then usersFromBP c.users else []
    groups := if !t.bootISO then groupsFromBP c.groups else []
    enabledServices := imageConfig.enabledServices
    disabledServices := imageConfig.disabledServices
    firewall :=
      match c.firewall with
      | none => imageConfig.firewall
      | some fw =>
        some { ports := fw.ports
               enabledServices := match fw.services with | some s => s.enabled | none => []
               disabledServices := match fw.services with | some s => s.disabled | none => []
               zones := fw.zones.map fun z => { name := z.name, sources := z.sources } } }

end Rhel9

/-! ### Installer images and the users capability module -/

/-- The fields of `image.NewAnacondaOSTreeInstaller` images relevant to
user/group staging. -/
structure AnacondaInstallerImg where
  users : List OSUser
  groups : List OSGroup
  additionalAnacondaModules : List String
deriving DecidableEq

namespace Fedora

/-- Fedora `iotInstallerImage` (images.go lines 376-415): users and
groups are staged on the image (kickstart side channel) and the anaconda
module list — including the Users module — is attached unconditionally. -/
def iotInstallerImage (c : Customizations) : AnacondaInstallerImg :=
  { users := usersFromBP c.users
    groups := groupsFromBP c.groups
    additionalAnacondaModules :=
      ["org.fedoraproject.Anaconda.Modules.Timezone",
       "org.fedoraproject.Anaconda.Modules.Localization",
       "org.fedoraproject.Anaconda.Modules.Users"] }

end Fedora

namespace Rhel9

/-- rhel9 `edgeInstallerImage` (images.go lines 847-892): users and
groups are staged on the image and the Users anaconda module is enabled
only when at least one user or group is present. -/
def edgeInstallerImage (c : Customizations) : AnacondaInstallerImg :=
  let users := usersFromBP c.users
  let groups := groupsFromBP c.groups
  { users := users
    groups := groups
    additionalAnacondaModules :=
      if 0 < users.length + groups.length then
        ["org.fedoraproject.Anaconda.Modules.Users"]
      else
        [] }

end Rhel9

/-! ### OSTree parent/payload commit derivation -/

/-- `ostree.ImageOptions`: the user-supplied ostree options. -/
structure OSTreeImageOptions where
  imageRef : String
  parentRef : String
  url : String
  rhsm : Bool
deriving DecidableEq

namespace Fedora

/-- Fedora `makeOSTreeParentCommit` (images.go lines 483-513). -/
def makeOSTreeParentCommit (options : Option OSTreeImageOptions) (defaultRef : String) :
    Option OSTreeSourceSpec × String :=
  match options with
  | none => (none, defaultRef)
  | some o =>
    let commitRef := if o.imageRef ≠ "" then o.imageRef else defaultRef
    if o.url = "" then
      (none, commitRef)
    else
      let parentRef := if o.parentRef ≠ "" then o.parentRef else commitRef
      (some { url := o.url, ref := parentRef, rhsm := o.rhsm }, commitRef)

/-- Fedora `makeOSTreePayloadCommit` (images.go lines 516-534). -/
def makeOSTreePayloadCommit (options : Option OSTreeImageOptions) (defaultRef : String) :
    Except String OSTreeSourceSpec :=
  match options with
  | none => .error "ostree commit URL required"
  | some o =>
    if o.url = "" then
      .error "ostree commit URL required"
    else
      let commitRef := if o.imageRef ≠ "" then o.imageRef else defaultRef
      .ok { url := o.url, ref := commitRef, rhsm := o.rhsm }

end Fedora

namespace Rhel9

/-- rhel9 `makeOSTreeParentCommit` (images.go lines 1111-1141); the body
is line-for-line the fedora one. -/
def makeOSTreeParentCommit (options : Option OSTreeImageOptions) (defaultRef : String) :
    Option OSTreeSourceSpec × String :=
  match options with
  | none => (none, defaultRef)
  | some o =>
    let commitRef := if o.imageRef ≠ "" then o.imageRef else defaultRef
    if o.url = "" then
      (none, commitRef)
    else
      let parentRef := if o.parentRef ≠ "" then o.parentRef else commitRef
      (some { url := o.url, ref := parentRef, rhsm := o.rhsm }, commitRef)

/-- rhel9 `makeOSTreePayloadCommit` (images.go lines 1144-1162); the body
is line-for-line the fedora one. -/
def makeOSTreePayloadCommit (options : Option OSTreeImageOptions) (defaultRef : String) :
    Except String OSTreeSourceSpec :=
  match options with
  | none => .error "ostree commit URL required"
  | some o =>
    if o.url = "" then
      .error "ostree commit URL required"
    else
      let commitRef := if o.imageRef ≠ "" then o.imageRef else defaultRef
      .ok { url := o.url, ref := commitRef, rhsm := o.rhsm }

end Rhel9

/-! ### Concrete fixtures used by witnesses and counterexamples -/

/-- A distro-default firewall enabling the ssh service. -/
def fwDistroDefault : FirewallStageOptions :=
  { ports := [], enabledServices := ["ssh"], disabledServices := [], zones := [] }

/-- A bootable, non-installer image type whose default image configuration
carries `fwDistroDefault` and the default kernel options "quiet". -/
def fwDefaultImageType : ImageType :=
  { bootable := true, rpmOstree := false, bootISO := false, kernelOptions := "quiet"
    defaultImageConfig :=
      { enabledServices := [], disabledServices := [], firewall := some fwDistroDefault } }

/-- Customizations supplying nothing at all. -/
def emptyCustomizations : Customizations :=
  { kernel := none, users := [], groups := [], firewall := none }

/-- A user firewall customization enabling only http, with no disabled
list and no zones. -/
def fwUserCustomization : FirewallCustomization :=
  { ports := [], services := some { enabled := ["http"], disabled := [] }, zones := [] }

/-- Customizations supplying only the http firewall rule. -/
def httpFirewallCustomizations : Customizations :=
  { kernel := none, users := [], groups := [], firewall := some fwUserCustomization }

/-- Customizations supplying a kernel name and append. -/
def debugKernelCustomizations : Customizations :=
  { kernel := some ⟨"kernel-debug", "debug"⟩, users := [], groups := [], firewall := none }

/-- Customizations supplying one user and one group. -/
def aliceCustomizations : Customizations :=
  { kernel := none, users := [⟨"alice"⟩], groups := [⟨"wheel"⟩], firewall := none }

/-- An installer (bootISO) image type. -/
def installerImageType : ImageType :=
  { bootable := true, rpmOstree := false, bootISO := true, kernelOptions := ""
    defaultImageConfig := { enabledServices := [], disabledServices := [], firewall := none } }

/-- A non-bootable, non-ostree image type (e.g. a container type). -/
def containerImageType : ImageType :=
  { bootable := false, rpmOstree := false, bootISO := false, kernelOptions := ""
    defaultImageConfig := { enabledServices := [], disabledServices := [], firewall := none } }

/-- Concrete ostree options: a URL and an image ref, but no parent ref. -/
def ostreeOptsNoParent : OSTreeImageOptions :=
  { imageRef := "user/ref", parentRef := "", url := "https://ostree.example.org", rhsm := false }

/-! ### C1: the firewall merge -/

/-- C1 counterexample: in the fedora merge, with a distro default firewall
present and no user firewall customization, the merged firewall is unset
rather than the distro default object, so the claimed fallback does not
hold there. -/
theorem firewallMerge_counterexample :
    (Fedora.osCustomizations fwDefaultImageType emptyCustomizations).firewall = none ∧
    fwDefaultImageType.defaultImageConfig.firewall = some fwDistroDefault ∧
    (Fedora.osCustomizations fwDefaultImageType emptyCustomizations).firewall ≠
      fwDefaultImageType.defaultImageConfig.firewall := by decide

/-- C1 (amended): a user firewall customization fully replaces the
firewall object in both merge variants — the merged firewall holds only
the user's ports/services (no union with the distro default); on absent
customization the rhel9 merge falls back to the distro default object
as-is, while the fedora merge leaves the firewall unset without reading
the distro default.  The rhel9 merge keeps user zones; the fedora merge
drops them. -/
theorem firewallMerge_spec :
    ∀ (t : ImageType) (c : Customizations),
      (c.firewall = none →
        (Rhel9.osCustomizations t c).firewall = t.defaultImageConfig.firewall ∧
        (Fedora.osCustomizations t c).firewall = none) ∧
      (∀ fw, c.firewall = some fw →
        (Rhel9.osCustomizations t c).firewall =
          some { ports := fw.ports
                 enabledServices := match fw.services with | some s => s.enabled | none => []
                 disabledServices := match fw.services with | some s => s.disabled | none => []
                 zones := fw.zones.map fun z => { name := z.name, sources := z.sources } } ∧
        (Fedora.osCustomizations t c).firewall =
          some { ports := fw.ports
                 enabledServices := match fw.services with | some s => s.enabled | none => []
                 disabledServices := match fw.services with | some s => s.disabled | none => []
                 zones := [] }) := by
  intro t c
  constructor
  · intro h
    exact ⟨by simp [Rhel9.osCustomizations, h], by simp [Fedora.osCustomizations, h]⟩
  · intro fw h
    exact ⟨by simp [Rhel9.osCustomizations, h], by simp [Fedora.osCustomizations, h]⟩

/-- Witness for `firewallMerge_spec`: the spec's own test case — distro
default enabling ssh, user customization enabling http — merges to a
firewall holding only http in both variants, and the no-customization
fallback yields the distro default in the rhel9 variant. -/
theorem firewallMerge_spec_witness :
    (Rhel9.osCustomizations fwDefaultImageType httpFirewallCustomizations).firewall =
      some { ports := [], enabledServices := ["http"], disabledServices := [], zones := [] } ∧
    (Fedora.osCustomizations fwDefaultImageType httpFirewallCustomizations).firewall =
      some { ports := [], enabledServices := ["http"], disabledServices := [], zones := [] } ∧
    (Rhel9.osCustomizations fwDefaultImageType emptyCustomizations).firewall =
      some fwDistroDefault :=
  ⟨((firewallMerge_spec fwDefaultImageType httpFirewallCustomizations).2
      fwUserCustomization rfl).1,
   ((firewallMerge_spec fwDefaultImageType httpFirewallCustomizations).2
      fwUserCustomization rfl).2,
   ((firewallMerge_spec fwDefaultImageType emptyCustomizations).1 rfl).1⟩

/-! ### C2: the kernel-options merge -/

/-- C2: for bootable or rpm-ostree image types the merged kernel options
append is the image-type default append followed by the user append, in
that order, an empty default or user append contributing nothing; with
both present the list is exactly [default, user], which space-joins to
"default user".  Both merge variants agree. -/
theorem kernelOptionsMerge_spec :
    ∀ (t : ImageType) (c : Customizations),
      (t.bootable || t.rpmOstree) = true →
      (Fedora.osCustomizations t c).kernelOptionsAppend =
        (if t.kernelOptions ≠ "" then [t.kernelOptions] else []) ++
        (if (getKernel c).append ≠ "" then [(getKernel c).append] else []) ∧
      (Rhel9.osCustomizations t c).kernelOptionsAppend =
        (Fedora.osCustomizations t c).kernelOptionsAppend ∧
      (t.kernelOptions ≠ "" → (getKernel c).append ≠ "" →
        (Fedora.osCustomizations t c).kernelOptionsAppend =
          [t.kernelOptions, (getKernel c).append] ∧
        String.intercalate " " (Fedora.osCustomizations t c).kernelOptionsAppend =
          t.kernelOptions ++ " " ++ (getKernel c).append) := by
  intro t c h
  refine ⟨by simp [Fedora.osCustomizations, h], by simp [Fedora.osCustomizations, Rhel9.osCustomizations, h], ?_⟩
  intro hd hu
  have he : (Fedora.osCustomizations t c).kernelOptionsAppend =
      [t.kernelOptions, (getKernel c).append] := by
    simp [Fedora.osCustomizations, h, hd, hu]
  exact ⟨he, by rw [he]; rfl⟩

/-- Witness for `kernelOptionsMerge_spec`: the spec's merge-precedence
test — default "quiet" plus user "debug" merges to ["quiet", "debug"],
space-joined "quiet debug". -/
theorem kernelOptionsMerge_spec_witness :
    (Fedora.osCustomizations fwDefaultImageType debugKernelCustomizations).kernelOptionsAppend =
      ["quiet", "debug"] ∧
    String.intercalate " "
      (Fedora.osCustomizations fwDefaultImageType debugKernelCustomizations).kernelOptionsAppend =
      "quiet debug" :=
  (kernelOptionsMerge_spec fwDefaultImageType debugKernelCustomizations (by decide)).2.2
    (by decide) (by decide)

/-! ### C3: installer payloads carry no users or groups -/

/-- C3: for every installer-variant (bootISO) image type and every user
customization, the merged OS customizations carry empty user and group
lists in both merge variants; the installer image constructors instead
stage the users and groups themselves (the kickstart side channel). -/
theorem installerUsersGroups_spec :
    ∀ (t : ImageType) (c : Customizations), t.bootISO = true →
      (Fedora.osCustomizations t c).users = [] ∧
      (Fedora.osCustomizations t c).groups = [] ∧
      (Rhel9.osCustomizations t c).users = [] ∧
      (Rhel9.osCustomizations t c).groups = [] ∧
      (Fedora.iotInstallerImage c).users = usersFromBP c.users ∧
      (Fedora.iotInstallerImage c).groups = groupsFromBP c.groups ∧
      (Rhel9.edgeInstallerImage c).users = usersFromBP c.users ∧
      (Rhel9.edgeInstallerImage c).groups = groupsFromBP c.groups := by
  intro t c h
  refine ⟨?_, ?_, ?_, ?_, rfl, rfl, rfl, rfl⟩ <;>
    simp [Fedora.osCustomizations, Rhel9.osCustomizations, h]

/-- Witness for `installerUsersGroups_spec`: an installer type with a
user and a group supplied still merges to empty OS-payload lists, while
the installer image itself receives them. -/
theorem installerUsersGroups_spec_witness :
    (Fedora.osCustomizations installerImageType aliceCustomizations).users = [] ∧
    (Rhel9.osCustomizations installerImageType aliceCustomizations).users = [] ∧
    (Fedora.iotInstallerImage aliceCustomizations).users =
      usersFromBP aliceCustomizations.users :=
  ⟨(installerUsersGroups_spec installerImageType aliceCustomizations rfl).1,
   (installerUsersGroups_spec installerImageType aliceCustomizations rfl).2.2.1,
   (installerUsersGroups_spec installerImageType aliceCustomizations rfl).2.2.2.2.1⟩

/-! ### C4: payload commit derivation -/

/-- The ostree options are absent or carry an empty source URL. -/
def ostreeURLMissing : Option OSTreeImageOptions → Bool
  | none => true
  | some o => o.url == ""

/-- C4: `makeOSTreePayloadCommit` (both variants) fails with exactly
"ostree commit URL required" precisely when the options are absent or
their URL is empty — for every default ref, including "" — and otherwise
returns a source spec whose ref is the user image ref when non-empty,
else the default ref, with the URL and RHSM flag copied through. -/
theorem payloadCommit_spec :
    ∀ (opts : Option OSTreeImageOptions) (defaultRef : String),
      (Fedora.makeOSTreePayloadCommit opts defaultRef =
          Except.error "ostree commit URL required" ↔ ostreeURLMissing opts = true) ∧
      (Rhel9.makeOSTreePayloadCommit opts defaultRef =
          Fedora.makeOSTreePayloadCommit opts defaultRef) ∧
      (∀ o, opts = some o → o.url ≠ "" →
        Fedora.makeOSTreePayloadCommit opts defaultRef =
          Except.ok { url := o.url
                      ref := if o.imageRef ≠ "" then o.imageRef else defaultRef
                      rhsm := o.rhsm }) := by
  intro opts defaultRef
  cases opts with
  | none => exact ⟨by simp [Fedora.makeOSTreePayloadCommit, ostreeURLMissing], rfl,
      fun o ho => by cases ho⟩
  | some o =>
    by_cases hu : o.url = ""
    · refine ⟨?_, ?_, ?_⟩
      · simp [Fedora.makeOSTreePayloadCommit, ostreeURLMissing, hu]
      · simp [Fedora.makeOSTreePayloadCommit, Rhel9.makeOSTreePayloadCommit, hu]
      · intro o' ho' hu'
        cases ho'
        exact absurd hu hu'
    · refine ⟨?_, ?_, ?_⟩
      · simp [Fedora.makeOSTreePayloadCommit, ostreeURLMissing, hu]
      · simp [Fedora.makeOSTreePayloadCommit, Rhel9.makeOSTreePayloadCommit, hu]
      · intro o' ho' _
        cases ho'
        simp [Fedora.makeOSTreePayloadCommit, hu]

/-- Witness for `payloadCommit_spec`: concrete options with a URL and a
user image ref derive a payload spec carrying the user ref, and the
error case fires for empty-URL options under the empty default ref. -/
theorem payloadCommit_spec_witness :
    Fedora.makeOSTreePayloadCommit (some ostreeOptsNoParent) "default/ref" =
      Except.ok { url := "https://ostree.example.org", ref := "user/ref", rhsm := false } ∧
    Fedora.makeOSTreePayloadCommit (some ⟨"", "", "", false⟩) "" =
      Except.error "ostree commit URL required" :=
  ⟨(payloadCommit_spec (some ostreeOptsNoParent) "default/ref").2.2
      ostreeOptsNoParent rfl (by decide),
   (payloadCommit_spec (some ⟨"", "", "", false⟩) "").1.mpr (by decide)⟩

/-! ### C5: parent commit derivation -/

/-- C5: `makeOSTreeParentCommit` is total (error-free); with no options it
returns no parent and the default ref unchanged; a non-empty user image
ref overrides the default ref as the effective ref; an empty source URL
yields no parent; and with a URL and no explicit parent ref the parent
spec's ref equals the effective ref.  The rhel9 copy agrees with the
fedora one on all inputs. -/
theorem parentCommit_spec :
    ∀ (o : OSTreeImageOptions) (defaultRef : String),
      Fedora.makeOSTreeParentCommit none defaultRef = (none, defaultRef) ∧
      ((Fedora.makeOSTreeParentCommit (some o) defaultRef).2 =
        if o.imageRef ≠ "" then o.imageRef else defaultRef) ∧
      (o.url = "" → (Fedora.makeOSTreeParentCommit (some o) defaultRef).1 = none) ∧
      (o.url ≠ "" →
        (Fedora.makeOSTreeParentCommit (some o) defaultRef).1 =
          some { url := o.url
                 ref := if o.parentRef ≠ "" then o.parentRef
                        else (Fedora.makeOSTreeParentCommit (some o) defaultRef).2
                 rhsm := o.rhsm }) ∧
      (o.url ≠ "" → o.parentRef = "" →
        (Fedora.makeOSTreeParentCommit (some o) defaultRef).1 =
          some { url := o.url
                 ref := (Fedora.makeOSTreeParentCommit (some o) defaultRef).2
                 rhsm := o.rhsm }) ∧
      Rhel9.makeOSTreeParentCommit (some o) defaultRef =
        Fedora.makeOSTreeParentCommit (some o) defaultRef ∧
      Rhel9.makeOSTreeParentCommit none defaultRef =
        Fedora.makeOSTreeParentCommit none defaultRef := by
  intro o defaultRef
  by_cases hu : o.url = ""
  · refine ⟨rfl, ?_, ?_, ?_, ?_, ?_, rfl⟩
    · simp [Fedora.makeOSTreeParentCommit, hu]
    · intro _; simp [Fedora.makeOSTreeParentCommit, hu]
    · intro h; exact absurd hu h
    · intro h _; exact absurd hu h
    · simp [Fedora.makeOSTreeParentCommit, Rhel9.makeOSTreeParentCommit, hu]
  · by_cases hp : o.parentRef = ""
    · refine ⟨rfl, ?_, ?_, ?_, ?_, ?_, rfl⟩
      · simp [Fedora.makeOSTreeParentCommit, hu]
      · intro h; exact absurd h hu
      · intro _; simp [Fedora.makeOSTreeParentCommit, hu, hp]
      · intro _ _; simp [Fedora.makeOSTreeParentCommit, hu, hp]
      · simp [Fedora.makeOSTreeParentCommit, Rhel9.makeOSTreeParentCommit, hu, hp]
    · refine ⟨rfl, ?_, ?_, ?_, ?_, ?_, rfl⟩
      · simp [Fedora.makeOSTreeParentCommit, hu]
      · intro h; exact absurd h hu
      · intro _; simp [Fedora.makeOSTreeParentCommit, hu, hp]
      · intro _ h; exact absurd h hp
      · simp [Fedora.makeOSTreeParentCommit, Rhel9.makeOSTreeParentCommit, hu, hp]

/-- Witness for `parentCommit_spec`: options with a URL, a user image ref
and no explicit parent ref derive a parent spec whose ref equals the
user-overridden effective ref. -/
theorem parentCommit_spec_witness :
    (Fedora.makeOSTreeParentCommit (some ostreeOptsNoParent) "default/ref").1 =
      some { url := "https://ostree.example.org", ref := "user/ref", rhsm := false } ∧
    (Fedora.makeOSTreeParentCommit (some ostreeOptsNoParent) "default/ref").2 = "user/ref" := by
  have h := parentCommit_spec ostreeOptsNoParent "default/ref"
  have h1 := h.2.2.2.2.1 (by decide) rfl
  have h2 := h.2.1
  exact ⟨by rw [h1, h2]; rfl, by rw [h2]; rfl⟩

/-! ### C7: the users capability module on installers -/

/-- C7 counterexample: the fedora IoT installer enables the Users
anaconda module although the customizations supply no user and no
group, so the module is not enabled "only when at least one user or
group is actually present". -/
theorem usersModule_counterexample :
    (Fedora.iotInstallerImage emptyCustomizations).users.length +
      (Fedora.iotInstallerImage emptyCustomizations).groups.length = 0 ∧
    "org.fedoraproject.Anaconda.Modules.Users" ∈
      (Fedora.iotInstallerImage emptyCustomizations).additionalAnacondaModules := by decide

/-- C7 (amended): the rhel9 edge installer enables the Users anaconda
module exactly when at least one user or group is present; the fedora
IoT installer enables it unconditionally, for every customization. -/
theorem usersModule_spec :
    ∀ c : Customizations,
      ("org.fedoraproject.Anaconda.Modules.Users" ∈
          (Rhel9.edgeInstallerImage c).additionalAnacondaModules ↔
        0 < (Rhel9.edgeInstallerImage c).users.length +
            (Rhel9.edgeInstallerImage c).groups.length) ∧
      "org.fedoraproject.Anaconda.Modules.Users" ∈
        (Fedora.iotInstallerImage c).additionalAnacondaModules := by
  intro c
  constructor
  · by_cases h : 0 < (usersFromBP c.users).length + (groupsFromBP c.groups).length
    · simp [Rhel9.edgeInstallerImage, h]
    · simp [Rhel9.edgeInstallerImage, h]
  · simp [Fedora.iotInstallerImage]

/-! ### C10: kernel fields on non-bootable, non-ostree types -/

/-- C10: when an image type is neither bootable nor rpm-ostree, both
merge variants leave the kernel name empty and the kernel options append
empty, regardless of any kernel customization the user supplied. -/
theorem nonBootableKernel_spec :
    ∀ (t : ImageType) (c : Customizations),
      t.bootable = false → t.rpmOstree = false →
      (Fedora.osCustomizations t c).kernelName = "" ∧
      (Fedora.osCustomizations t c).kernelOptionsAppend = [] ∧
      (Rhel9.osCustomizations t c).kernelName = "" ∧
      (Rhel9.osCustomizations t c).kernelOptionsAppend = [] := by
  intro t c hb hr
  refine ⟨?_, ?_, ?_, ?_⟩ <;> simp [Fedora.osCustomizations, Rhel9.osCustomizations, hb, hr]

/-- Witness for `nonBootableKernel_spec`: a container-style image type
with an explicit user kernel name and append still yields empty kernel
fields. -/
theorem nonBootableKernel_spec_witness :
    (Fedora.osCustomizations containerImageType debugKernelCustomizations).kernelName = "" ∧
    (Fedora.osCustomizations containerImageType debugKernelCustomizations).kernelOptionsAppend = [] ∧
    (Rhel9.osCustomizations containerImageType debugKernelCustomizations).kernelOptionsAppend = [] :=
  ⟨(nonBootableKernel_spec containerImageType debugKernelCustomizations rfl rfl).1,
   (nonBootableKernel_spec containerImageType debugKernelCustomizations rfl rfl).2.1,
   (nonBootableKernel_spec containerImageType debugKernelCustomizations rfl rfl).2.2.2⟩

/-! ### The deterministic serializer

`save` in `src/unnamed/part_000` (lines 276-291) runs
`json.MarshalIndent(ms, "", "  ")` and appends a single newline byte.
Go's encoder emits object keys in a deterministic (sorted) order, indents
with two spaces per nesting level, HTML-escapes the angle brackets and
the ampersand to their numeric escapes, and emits no trailing newline of
its own.  The JSON documents are embedded as a mutual inductive value /
array / object family, and the encoder as a normalization pass sorting
object keys followed by a marshalling pass. -/

mutual
inductive JVal where
  | null
  | bool (b : Bool)
  | num (n : Int)
  | str (s : String)
  | arr (xs : JArr)
  | obj (kvs : JObj)

inductive JArr where
  | nil
  | cons (v : JVal) (rest : JArr)

inductive JObj where
  | nil
  | cons (k : String) (v : JVal) (rest : JObj)
end

def lbraceChar : Char := Char.ofNat 123

def rbraceChar : Char := Char.ofNat 125

/-- Byte-order comparison of strings (Go's `sort.Strings` order on the
ASCII keys at hand), decidable by evaluation. -/
def charListLe : List Char → List Char → Bool
  | [], _ => true
  | _ :: _, [] => false
  | a :: as, b :: bs =>
    if a.toNat < b.toNat then true
    else if b.toNat < a.toNat then false
    else charListLe as bs

def strLe (a b : String) : Bool :=
  charListLe a.data b.data

/-- Escape one character the way Go's `encoding/json` encoder does with
HTML escaping on: quote, backslash, the three HTML-active characters and
the line separators to numeric escapes, control characters to \u00XX
(with the \n, \r, \t shorthands). -/
def escapeChar (c : Char) : List Char :=
  if c = '"' then ['\\', '"']
  else if c = '\\' then ['\\', '\\']
  else if c = '\n' then ['\\', 'n']
  else if c = '\r' then ['\\', 'r']
  else if c = '\t' then ['\\', 't']
  else if c = '<' then "\\u003c".data
  else if c = '>' then "\\u003e".data
  else if c = '&' then "\\u0026".data
  else if c.toNat < 32 then ['\\', 'u', '0', '0', hexDigit (c.toNat / 16), hexDigit (c.toNat % 16)]
  else if c.toNat = 0x2028 then "\\u2028".data
  else if c.toNat = 0x2029 then "\\u2029".data
  else [c]

def escapeChars (cs : List Char) : List Char :=
  cs.foldr (fun c acc => escapeChar c ++ acc) []

def quoteString (s : String) : List Char :=
  '"' :: escapeChars s.data ++ ['"']

def digitCh (n : Nat) : Char :=
  Char.ofNat (48 + n % 10)

def natCharsAux : Nat → Nat → List Char → List Char
  | 0, _, acc => acc
  | fuel + 1, n, acc =>
    if n < 10 then digitCh n :: acc
    else natCharsAux fuel (n / 10) (digitCh (n % 10) :: acc)

def natChars (n : Nat) : List Char :=
  natCharsAux (n + 1) n []

def intChars : Int → List Char
  | .ofNat n => natChars n
  | .negSucc n => '-' :: natChars (n + 1)

def indentChars (d : Nat) : List Char :=
  List.replicate (2 * d) ' '

/-- Insert a key/value pair into an object sorted by key. -/
def insertObj (k : String) (v : JVal) : JObj → JObj
  | .nil => .cons k v .nil
  | .cons k2 v2 rest =>
    if strLe k k2 then .cons k v (.cons k2 v2 rest)
    else .cons k2 v2 (insertObj k v rest)

mutual
def sortVal : JVal → JVal
  | .null => .null
  | .bool b => .bool b
  | .num n => .num n
  | .str s => .str s
  | .arr xs => .arr (sortArr xs)
  | .obj kvs => .obj (sortObj kvs)

def sortArr : JArr → JArr
  | .nil => .nil
  | .cons v rest => .cons (sortVal v) (sortArr rest)

def sortObj : JObj → JObj
  | .nil => .nil
  | .cons k v rest => insertObj k (sortVal v) (sortObj rest)
end

mutual
def marshalVal (d : Nat) : JVal → List Char
  | .null => "null".data
  | .bool true => "true".data
  | .bool false => "false".data
  | .num n => intChars n
  | .str s => quoteString s
  | .arr xs =>
    match xs with
    | .nil => "[]".data
    | .cons _ _ => '[' :: '\n' :: (marshalItems (d + 1) xs ++ '\n' :: indentChars d ++ [']'])
  | .obj kvs =>
    match kvs with
    | .nil => [lbraceChar, rbraceChar]
    | .cons _ _ _ =>
      lbraceChar :: '\n' :: (marshalFields (d + 1) kvs ++ '\n' :: indentChars d ++ [rbraceChar])

def marshalItems (d : Nat) : JArr → List Char
  | .nil => []
  | .cons v .nil => indentChars d ++ marshalVal d v
  | .cons v (.cons v2 rest) =>
    indentChars d ++ marshalVal d v ++ ',' :: '\n' :: marshalItems d (.cons v2 rest)

def marshalFields (d : Nat) : JObj → List Char
  | .nil => []
  | .cons k v .nil => indentChars d ++ (quoteString k ++ ':' :: ' ' :: marshalVal d v)
  | .cons k v (.cons k2 v2 rest) =>
    indentChars d ++ (quoteString k ++ ':' :: ' ' :: marshalVal d v) ++
      ',' :: '\n' :: marshalFields d (.cons k2 v2 rest)
end

/-- `json.MarshalIndent(ms, "", "  ")`: sort object keys, marshal with
two-space indentation; no trailing newline. -/
def marshalIndent (v : JVal) : List Char :=
  marshalVal 0 (sortVal v)

/-- `save` (src/unnamed/part_000 lines 276-291): the indented marshal of
the manifest with a single newline byte appended. -/
def save (ms : JVal) : String :=
  String.mk (marshalIndent ms ++ ['\n'])

def objKeys : JObj → List String
  | .nil => []
  | .cons k _ rest => k :: objKeys rest

theorem charListLe_total : ∀ a b : List Char, charListLe a b = true ∨ charListLe b a = true
  | [], _ => Or.inl rfl
  | _ :: _, [] => Or.inr rfl
  | a :: as, b :: bs => by
    rcases Nat.lt_trichotomy a.toNat b.toNat with h | h | h
    · left; simp [charListLe, h]
    · rcases charListLe_total as bs with ih | ih
      · left; simp [charListLe, h, ih]
      · right; simp [charListLe, h, ih]
    · right; simp [charListLe, h]

theorem charListLe_trans :
    ∀ a b c : List Char, charListLe a b = true → charListLe b c = true → charListLe a c = true
  | [], _, _, _, _ => rfl
  | _ :: _, [], _, h1, _ => by simp [charListLe] at h1
  | _ :: _, _ :: _, [], _, h2 => by simp [charListLe] at h2
  | a :: as, b :: bs, c :: cs, h1, h2 => by
    by_cases hab : a.toNat < b.toNat
    · by_cases hbc : b.toNat < c.toNat
      · simp [charListLe, Nat.lt_trans hab hbc]
      · by_cases hcb : c.toNat < b.toNat
        · simp [charListLe, hbc, hcb] at h2
        · have heq : b.toNat = c.toNat :=
            Nat.le_antisymm (Nat.le_of_not_lt hcb) (Nat.le_of_not_lt hbc)
          have hac : a.toNat < c.toNat := heq ▸ hab
          simp [charListLe, hac]
    · by_cases hba : b.toNat < a.toNat
      · simp [charListLe, hab, hba] at h1
      · have heq : a.toNat = b.toNat :=
          Nat.le_antisymm (Nat.le_of_not_lt hba) (Nat.le_of_not_lt hab)
        have h1' : charListLe as bs = true := by simpa [charListLe, hab, hba] using h1
        by_cases hbc : b.toNat < c.toNat
        · have hac : a.toNat < c.toNat := heq ▸ hbc
          simp [charListLe, hac]
        · by_cases hcb : c.toNat < b.toNat
          · simp [charListLe, hbc, hcb] at h2
          · have heq2 : b.toNat = c.toNat :=
              Nat.le_antisymm (Nat.le_of_not_lt hcb) (Nat.le_of_not_lt hbc)
            have h2' : charListLe bs cs = true := by simpa [charListLe, hbc, hcb] using h2
            have hac : a.toNat = c.toNat := heq.trans heq2
            simp [charListLe, hac, charListLe_trans as bs cs h1' h2']

theorem strLe_total (a b : String) : strLe a b = true ∨ strLe b a = true :=
  charListLe_total a.data b.data

theorem strLe_trans (a b c : String) (h1 : strLe a b = true) (h2 : strLe b c = true) :
    strLe a c = true :=
  charListLe_trans a.data b.data c.data h1 h2

theorem objKeys_insertObj (k : String) (v : JVal) :
    ∀ (o : JObj) (x : String), x ∈ objKeys (insertObj k v o) → x = k ∨ x ∈ objKeys o
  | .nil, x, hx => by
    simp [insertObj, objKeys] at hx
    exact Or.inl hx
  | .cons k2 v2 rest, x, hx => by
    by_cases h : strLe k k2 = true
    · simp only [insertObj, h, if_true, objKeys] at hx
      rcases List.mem_cons.mp hx with hk | hx2
      · exact Or.inl hk
      · exact Or.inr hx2
    · simp only [insertObj, h, if_false, objKeys] at hx
      rcases List.mem_cons.mp hx with hk | hx2
      · exact Or.inr (by simp [objKeys, hk])
      · rcases objKeys_insertObj k v rest x hx2 with h1 | h1
        · exact Or.inl h1
        · exact Or.inr (by simp [objKeys, h1])

theorem insertObj_pairwise (k : String) (v : JVal) :
    ∀ o : JObj, List.Pairwise (fun a b => strLe a b = true) (objKeys o) →
      List.Pairwise (fun a b => strLe a b = true) (objKeys (insertObj k v o))
  | .nil, _ => by simp [insertObj, objKeys]
  | .cons k2 v2 rest, h => by
    rw [objKeys, List.pairwise_cons] at h
    obtain ⟨h1, h2⟩ := h
    by_cases hle : strLe k k2 = true
    · simp only [insertObj, hle, if_true, objKeys]
      rw [List.pairwise_cons]
      refine ⟨?_, ?_⟩
      · intro x hx
        rcases List.mem_cons.mp hx with rfl | hx2
        · exact hle
        · exact strLe_trans k k2 x hle (h1 x hx2)
      · rw [List.pairwise_cons]
        exact ⟨h1, h2⟩
    · have hge : strLe k2 k = true := (strLe_total k k2).resolve_left hle
      simp only [insertObj, hle, if_false, objKeys]
      rw [List.pairwise_cons]
      refine ⟨?_, insertObj_pairwise k v rest h2⟩
      intro x hx
      rcases objKeys_insertObj k v rest x hx with rfl | hx2
      · exact hge
      · exact h1 x hx2

theorem sortObj_pairwise :
    ∀ o : JObj, List.Pairwise (fun a b => strLe a b = true) (objKeys (sortObj o))
  | .nil => by simp [sortObj, objKeys]
  | .cons k v rest => by
    simp only [sortObj]
    exact insertObj_pairwise k (sortVal v) (sortObj rest) (sortObj_pairwise rest)

theorem digitCh_ne_newline (n : Nat) : digitCh n ≠ '\n' := by
  unfold digitCh
  have h : n % 10 < 10 := Nat.mod_lt n (by norm_num)
  revert h
  generalize n % 10 = r
  intro h
  interval_cases r <;> decide

theorem natCharsAux_getLast :
    ∀ (fuel n : Nat) (acc : List Char), acc ≠ [] →
      (natCharsAux fuel n acc).getLast? = acc.getLast?
  | 0, _, _, _ => rfl
  | fuel + 1, n, acc, h => by
    simp only [natCharsAux]
    split
    · cases acc with
      | nil => exact absurd rfl h
      | cons a as => exact List.getLast?_cons_cons
    · rw [natCharsAux_getLast fuel (n / 10) (digitCh (n % 10) :: acc) (by simp)]
      cases acc with
      | nil => exact absurd rfl h
      | cons a as => exact List.getLast?_cons_cons

theorem natChars_getLast (n : Nat) : (natChars n).getLast? = some (digitCh (n % 10)) := by
  unfold natChars
  simp only [natCharsAux]
  split
  · next h => rw [Nat.mod_eq_of_lt h]; rfl
  · rw [natCharsAux_getLast _ _ _ (by simp)]
    rfl

theorem intChars_getLast_ne (i : Int) : (intChars i).getLast? ≠ some '\n' := by
  cases i with
  | ofNat n =>
    rw [show intChars (Int.ofNat n) = natChars n from rfl, natChars_getLast]
    intro h
    exact digitCh_ne_newline (n % 10) (Option.some.inj h)
  | negSucc n =>
    show ('-' :: natChars (n + 1)).getLast? ≠ some '\n'
    have h := natChars_getLast (n + 1)
    cases hl : natChars (n + 1) with
    | nil => rw [hl] at h; simp at h
    | cons a as =>
      rw [hl] at h
      rw [List.getLast?_cons_cons, h]
      intro hh
      exact digitCh_ne_newline _ (Option.some.inj hh)

theorem marshalVal_getLast_ne (d : Nat) (v : JVal) :
    (marshalVal d v).getLast? ≠ some '\n' := by
  cases v with
  | null => simp only [marshalVal]; decide
  | bool b => cases b <;> (simp only [marshalVal]; decide)
  | num n => simp only [marshalVal]; exact intChars_getLast_ne n
  | str s =>
    have he : marshalVal d (.str s) = ('"' :: escapeChars s.data) ++ ['"'] := by
      simp [marshalVal, quoteString]
    rw [he, List.getLast?_concat]
    decide
  | arr xs =>
    cases xs with
    | nil => simp only [marshalVal]; decide
    | cons v2 rest =>
      have he : marshalVal d (.arr (.cons v2 rest)) =
          ('[' :: '\n' :: (marshalItems (d + 1) (.cons v2 rest) ++ '\n' :: indentChars d)) ++
            [']'] := by
        simp [marshalVal, List.cons_append, List.append_assoc]
      rw [he, List.getLast?_concat]
      decide
  | obj kvs =>
    cases kvs with
    | nil => simp only [marshalVal]; decide
    | cons k v2 rest =>
      have he : marshalVal d (.obj (.cons k v2 rest)) =
          (lbraceChar :: '\n' ::
            (marshalFields (d + 1) (.cons k v2 rest) ++ '\n' :: indentChars d)) ++
            [rbraceChar] := by
        simp [marshalVal, List.cons_append, List.append_assoc]
      rw [he, List.getLast?_concat]
      decide

/-- A two-key manifest whose keys arrive out of order and whose string
value holds both angle brackets. -/
def exampleManifest : JVal :=
  .obj (.cons "b" (.str "<script>") (.cons "a" (.num 1) .nil))

/-- C9: `save` is byte-stable — a pure function of the manifest — and its
output is the marshalled document plus exactly one trailing newline (the
marshalled document itself never ends in a newline); object keys are
emitted in sorted (hence stable) order; the two angle brackets escape to
their numeric escapes (backslash-u003c and backslash-u003e), as checked
on the value "<script>"; and the two-key example renders with two-space
indentation, sorted keys and a single final newline. -/
theorem manifestSerialization_spec :
    (∀ m₁ m₂ : JVal, m₁ = m₂ → save m₁ = save m₂) ∧
    (∀ m : JVal, (save m).data = marshalIndent m ++ ['\n'] ∧
      (marshalIndent m).getLast? ≠ some '\n') ∧
    (∀ kvs : JObj, List.Pairwise (fun a b => strLe a b = true) (objKeys (sortObj kvs))) ∧
    escapeChars "<script>".data = "\\u003cscript\\u003e".data ∧
    save exampleManifest = "\x7b\n  \"a\": 1,\n  \"b\": \"\\u003cscript\\u003e\"\n\x7d\n" :=
  ⟨fun _ _ h => by rw [h],
   fun m => ⟨rfl, marshalVal_getLast_ne 0 (sortVal m)⟩,
   sortObj_pairwise,
   by decide,
   by decide⟩

/-- Witness for `manifestSerialization_spec`: the determinism conjunct
applied at the concrete example manifest, and its byte decomposition. -/
theorem manifestSerialization_spec_witness :
    save exampleManifest = save exampleManifest ∧
    (save exampleManifest).data = marshalIndent exampleManifest ++ ['\n'] :=
  ⟨manifestSerialization_spec.1 exampleManifest exampleManifest rfl,
   (manifestSerialization_spec.2.1 exampleManifest).1⟩
